import Mathlib

/-!
Verification of the vulnerability-scan analytics engine
(scripts/aggregate.py, scripts/comparator.py, scripts/sum_plots.py).

The Python code is shallowly embedded: parsed JSON documents become the
inductive type `JVal`; Python's string methods used by the scripts
(`upper`, `lower`, `strip`, `title`) are modelled on ASCII data, which is
the only data the severity/identifier pipeline receives; code that can
raise a Python exception (attribute errors on non-dict values, iteration
over non-iterables) is modelled in `Except Unit`.  Sets of identifiers
are `Finset String`, mirroring Python's `set` of `str`.
-/

/-! ### Python string primitives (ASCII fragment used by the scripts) -/

/-- Python word characters for the regex `\b` boundary: `[A-Za-z0-9_]`
(the reports contain only ASCII identifiers). -/
def isWordChar (c : Char) : Bool := c.isAlphanum || c == '_'

/-- `str.upper()` on the ASCII fragment. -/
def pyUpper (s : String) : String := String.mk (s.data.map Char.toUpper)

/-- `str.lower()` on the ASCII fragment. -/
def pyLower (s : String) : String := String.mk (s.data.map Char.toLower)

/-- `str.strip()`: remove leading and trailing whitespace. -/
def pyStrip (s : String) : String :=
  String.mk (((s.data.dropWhile Char.isWhitespace).reverse.dropWhile Char.isWhitespace).reverse)

/-- One step of `str.title()`: a letter is uppercased when the previous
character is not a letter, lowercased otherwise. -/
def pyTitleChars : Bool → List Char → List Char
  | _, [] => []
  | prevAlpha, c :: rest =>
    (if c.isAlpha then (if prevAlpha then c.toLower else c.toUpper) else c)
      :: pyTitleChars c.isAlpha rest

/-- `str.title()` on the ASCII fragment. -/
def pyTitle (s : String) : String := String.mk (pyTitleChars false s.data)

/-! ### Parsed JSON documents -/

/-- A parsed JSON document, as produced by `json.load`/`json.loads`.
Numbers are modelled as integers: the CVE/severity pipeline never reads a
numeric value except to observe its truthiness, and no number can contain
a CVE-shaped token when serialized. -/
inductive JVal where
  | null : JVal
  | bool : Bool → JVal
  | num : Int → JVal
  | str : String → JVal
  | arr : List JVal → JVal
  | obj : List (String × JVal) → JVal

/-- Python truthiness of a parsed JSON value (`None`, `False`, `0`, `""`,
`[]`, `\x7b\x7d` are falsy). -/
def truthy : JVal → Bool
  | .null => false
  | .bool b => b
  | .num n => n != 0
  | .str s => s ≠ ""
  | .arr xs => !xs.isEmpty
  | .obj fs => !fs.isEmpty

/-- `a or b` on parsed values. -/
def pyOr (a b : JVal) : JVal := if truthy a then a else b

/-- Key lookup in a parsed JSON object.  `json.loads` keeps the last
value for a duplicated key, hence the left fold. -/
def jGet (fs : List (String × JVal)) (k : String) : Option JVal :=
  fs.foldl (fun acc p => if p.1 == k then some p.2 else acc) none

/-- `d.get(k)` with default `None`, on a value known to be a dict. -/
def jGetD (fs : List (String × JVal)) (k : String) : JVal :=
  (jGet fs k).getD .null

/-- `v.get(k)` in Python: raises `AttributeError` when `v` is not a dict. -/
def pyGetD (v : JVal) (k : String) : Except Unit JVal :=
  match v with
  | .obj fs => .ok (jGetD fs k)
  | _ => .error ()

/-- Using a parsed value where a `str` method is called (`upper`, `strip`):
raises `AttributeError` unless the value is a string. -/
def asStr : JVal → Except Unit String
  | .str s => .ok s
  | _ => .error ()

/-- `for x in v` in Python: lists yield their items, dicts their keys,
strings their characters; other values raise `TypeError`. -/
def pyIter : JVal → Except Unit (List JVal)
  | .arr xs => .ok xs
  | .obj fs => .ok (fs.map (fun p => .str p.1))
  | .str s => .ok (s.data.map (fun c => .str (String.mk [c])))
  | _ => .error ()

/-! ### aggregate.py: severity buckets and risk weights -/

/-- `SEV_BUCKETS` from aggregate.py. -/
def SEV_BUCKETS : List String := ["CRITICAL", "HIGH", "MEDIUM", "LOW", "UNKNOWN"]

/-- `RISK_W` from aggregate.py (`LOW` weighs `0.5`). -/
def RISK_W : List (String × ℚ) :=
  [("CRITICAL", 5), ("HIGH", 3), ("MEDIUM", 1), ("LOW", 1/2), ("UNKNOWN", 0)]

/-- Weight lookup in `RISK_W`. -/
def riskW (s : String) : ℚ := ((RISK_W.find? (fun p => p.1 == s)).map (·.2)).getD 0

/-- A normalized vulnerability record (`\x7b"id": ..., "severity": ...\x7d`). -/
structure Item where
  id : String
  severity : String
deriving DecidableEq, Repr

/-- The severity-count vector of `severity_counts` (five buckets). -/
structure SevCounts where
  critical : ℕ
  high : ℕ
  medium : ℕ
  low : ℕ
  unknown : ℕ
deriving DecidableEq, Repr

/-- `severity_counts` from aggregate.py: one counter per bucket, bumped
once per record (the pipeline only ever feeds it bucket severities). -/
def severityCounts (items : List Item) : SevCounts where
  critical := (items.filter (fun it => it.severity == "CRITICAL")).length
  high := (items.filter (fun it => it.severity == "HIGH")).length
  medium := (items.filter (fun it => it.severity == "MEDIUM")).length
  low := (items.filter (fun it => it.severity == "LOW")).length
  unknown := (items.filter (fun it => it.severity == "UNKNOWN")).length

/-- `risk_score` from aggregate.py, written exactly as the source: each
count multiplied by its `RISK_W` entry. -/
def riskScore (c : SevCounts) : ℚ :=
  c.critical * riskW "CRITICAL" + c.high * riskW "HIGH" +
    c.medium * riskW "MEDIUM" + c.low * riskW "LOW" + c.unknown * riskW "UNKNOWN"

/-! ### CVE token matchers

aggregate.py uses `CVE_RX = (CVE-\d\x7b4\x7d-\d+)` (ignore-case, no word
boundaries) with `re.search`; comparator.py uses
`CVE_RE = \bCVE-\d\x7b4\x7d-\d\x7b4,7\x7d\b` (ignore-case) with
`fullmatch` and `findall`. -/

/-- Longest prefix of consecutive decimal digits, and the remainder. -/
def takeDigits (l : List Char) : List Char × List Char :=
  (l.takeWhile Char.isDigit, l.dropWhile Char.isDigit)

/-- Try aggregate.py's `CVE_RX` at the head of `l`: `CVE-` (any casing),
exactly four digits, `-`, then one or more digits taken greedily.
Returns the uppercased match. -/
def matchLooseAt (l : List Char) : Option String :=
  match l with
  | c1 :: c2 :: c3 :: c4 :: rest =>
    if c1.toUpper == 'C' && c2.toUpper == 'V' && c3.toUpper == 'E' && c4 == '-' then
      let (d1, r1) := takeDigits rest
      if d1.length == 4 then
        match r1 with
        | '-' :: r2 =>
          let (d2, _) := takeDigits r2
          if d2.length ≥ 1 then
            some (String.mk ('C' :: 'V' :: 'E' :: '-' :: d1 ++ '-' :: d2))
          else none
        | _ => none
      else none
    else none
  | _ => none

/-- `CVE_RX.search`: leftmost match of `matchLooseAt`, scanning left to
right. -/
def searchCve : List Char → Option String
  | [] => none
  | c :: rest =>
    match matchLooseAt (c :: rest) with
    | some t => some t
    | none => searchCve rest

/-- `extract_cve` from aggregate.py: falsy text yields `None`; a truthy
non-string raises `TypeError` inside `re.search`; otherwise the first
`CVE_RX` match, uppercased. -/
def extractCveField (v : JVal) : Except Unit (Option String) :=
  if truthy v then
    match v with
    | .str s => .ok (searchCve s.data)
    | _ => .error ()
  else .ok none

/-- `CVE_RE.fullmatch`: the whole string is `CVE-`, four digits, `-`,
four to seven digits (the `\b` anchors are vacuous under `fullmatch`). -/
def isFullCve (s : String) : Bool :=
  match s.data with
  | 'C' :: 'V' :: 'E' :: '-' :: rest =>
    let (d1, r1) := takeDigits rest
    d1.length == 4 &&
      (match r1 with
       | '-' :: r2 =>
         let (d2, r3) := takeDigits r2
         4 ≤ d2.length && d2.length ≤ 7 && r3.isEmpty
       | _ => false)
  | _ => false

/-- Try comparator.py's `CVE_RE` at the head of `l`: a `\b` boundary
before (encoded by `prevIsWord`), `CVE-` in any casing, four digits, `-`,
four to seven digits ending at a `\b` boundary.  Returns the uppercased
token and the number of characters consumed. -/
def matchCveAt (prevIsWord : Bool) (l : List Char) : Option (String × ℕ) :=
  if prevIsWord then none else
  match l with
  | c1 :: c2 :: c3 :: c4 :: rest =>
    if c1.toUpper == 'C' && c2.toUpper == 'V' && c3.toUpper == 'E' && c4 == '-' then
      let (d1, r1) := takeDigits rest
      if d1.length == 4 then
        match r1 with
        | '-' :: r2 =>
          let (d2, r3) := takeDigits r2
          if 4 ≤ d2.length && d2.length ≤ 7 &&
              (match r3 with | [] => true | c :: _ => !isWordChar c) then
            some (String.mk ('C' :: 'V' :: 'E' :: '-' :: d1 ++ '-' :: d2), 9 + d2.length)
          else none
        | _ => none
      else none
    else none
  | _ => none

/-- `CVE_RE.findall`: scan left to right; on a match consume it and keep
scanning (the last consumed character is a digit, a word character).
Fuel is the string length plus one; every step consumes at least one
character, so the fuel never runs out on the strings scanned. -/
def findCvesFuel : ℕ → Bool → List Char → List String
  | 0, _, _ => []
  | _ + 1, _, [] => []
  | fuel + 1, prevW, c :: rest =>
    match matchCveAt prevW (c :: rest) with
    | some (tok, k) => tok :: findCvesFuel fuel true ((c :: rest).drop k)
    | none => findCvesFuel fuel (isWordChar c) rest

/-- All `CVE_RE` matches in a string, uppercased. -/
def findCves (s : String) : List String := findCvesFuel (s.data.length + 1) false s.data

/-! ### json.dumps (default options, `ensure_ascii=False`) -/

/-- JSON string escaping as `json.dumps` performs it. -/
def jEscapeChar (c : Char) : List Char :=
  if c == '"' then ['\\', '"']
  else if c == '\\' then ['\\', '\\']
  else if c == '\n' then ['\\', 'n']
  else if c == '\t' then ['\\', 't']
  else if c == '\r' then ['\\', 'r']
  else if c == '\x08' then ['\\', 'b']
  else if c == '\x0c' then ['\\', 'f']
  else if c.toNat < 32 then
    '\\' :: 'u' :: '0' :: '0' :: [Nat.digitChar (c.toNat / 16), Nat.digitChar (c.toNat % 16)]
  else [c]

/-- A JSON-quoted string literal. -/
def jQuote (s : String) : String := String.mk ('"' :: s.data.flatMap jEscapeChar ++ ['"'])

mutual

/-- `json.dumps` with the default separators. -/
def jDumps : JVal → String
  | .null => "null"
  | .bool true => "true"
  | .bool false => "false"
  | .num n => toString n
  | .str s => jQuote s
  | .arr xs => "[" ++ jDumpsArr xs ++ "]"
  | .obj fs => "\x7b" ++ jDumpsObj fs ++ "\x7d"

def jDumpsArr : List JVal → String
  | [] => ""
  | [x] => jDumps x
  | x :: y :: rest => jDumps x ++ ", " ++ jDumpsArr (y :: rest)

def jDumpsObj : List (String × JVal) → String
  | [] => ""
  | [p] => jQuote p.1 ++ ": " ++ jDumps p.2
  | p :: q :: rest => jQuote p.1 ++ ": " ++ jDumps p.2 ++ ", " ++ jDumpsObj (q :: rest)

end

/-! ### aggregate.py: per-tool record iterators (`clair_iter_items`,
`trivy_iter_items`), tool detection and `load_items`

Errors (`AttributeError`/`TypeError` escaping the generator) are the
`Except.error` case; `list(...)` in `load_items` forces the whole
generator, so the first raised exception aborts the call. -/

/-- The body of `clair_iter_items`'s loop for one `(key, v)` entry:
resolve the severity (skipping `Negligible`), then the identifier.
`none` means the entry is skipped. -/
def clairProcessEntry (key : String) (v : JVal) : Except Unit (Option Item) := do
  let s1 ← pyGetD v "normalized_severity"
  let s2 ← pyGetD v "severity"
  let sevStr ← asStr (pyOr (pyOr s1 s2) (.str "UNKNOWN"))
  let norm := pyTitle (pyStrip sevStr)
  if pyLower norm == "negligible" then
    return none
  let sevU := pyUpper norm
  let sev := if sevU ∈ SEV_BUCKETS then sevU else "UNKNOWN"
  let nameV ← pyGetD v "name"
  let exName ← extractCveField nameV
  let linksV ← pyGetD v "links"
  let exLinks ← extractCveField linksV
  let vid := pyOr (pyOr (pyOr ((exName.map JVal.str).getD .null)
      ((exLinks.map JVal.str).getD .null)) nameV) (.str key)
  let vidS ← asStr (pyOr vid (.str key))
  return some { id := pyUpper vidS, severity := sev }

/-- The loop of `clair_iter_items` over the vulnerability map's entries. -/
def clairEntries : List (String × JVal) → Except Unit (List Item)
  | [] => .ok []
  | (k, v) :: rest => do
    let it? ← clairProcessEntry k v
    let restItems ← clairEntries rest
    return (match it? with | some it => it :: restItems | none => restItems)

/-- `clair_iter_items` from aggregate.py: locate the vulnerability map
(either under the `"vulnerabilities"` key, or the whole object when its
first value looks like a vulnerability record), then iterate its
entries.  Anything else yields no items. -/
def clairIterItems (obj : JVal) : Except Unit (List Item) :=
  match obj with
  | .obj fs =>
    let vulns : Option (List (String × JVal)) :=
      match jGet fs "vulnerabilities" with
      | some (.obj vfs) => some vfs
      | _ =>
        match fs.head? with
        | some (_, .obj sample) =>
          if (jGet sample "name").isSome || (jGet sample "normalized_severity").isSome
              || (jGet sample "severity").isSome
          then some fs else none
        | _ => none
    match vulns with
    | none => .ok []
    | some entries => clairEntries entries
  | _ => .ok []

/-- The body of `trivy_iter_items`'s inner loop for one vulnerability
`v`: `v.get` raises on non-dicts, an empty identifier skips the record,
and `sev_norm_trivy` resolves the severity. -/
def trivyProcessVuln (v : JVal) : Except Unit (Option Item) := do
  let vidV ← pyGetD v "VulnerabilityID"
  let vidS ← asStr (pyOr vidV (.str ""))
  let vid := pyUpper vidS
  if vid == "" then
    return none
  let sevV ← pyGetD v "Severity"
  let sevS ← asStr (pyOr sevV (.str "UNKNOWN"))
  let sevU := pyUpper sevS
  let sev := if sevU ∈ SEV_BUCKETS then sevU else "UNKNOWN"
  return some { id := vid, severity := sev }

/-- The inner loop of `trivy_iter_items` over one result's
vulnerability list. -/
def trivyVulns : List JVal → Except Unit (List Item)
  | [] => .ok []
  | v :: rest => do
    let it? ← trivyProcessVuln v
    let restItems ← trivyVulns rest
    return (match it? with | some it => it :: restItems | none => restItems)

/-- The outer loop of `trivy_iter_items` over `Results`. -/
def trivyResults : List JVal → Except Unit (List Item)
  | [] => .ok []
  | r :: rest => do
    let vulnsV ← pyGetD r "Vulnerabilities"
    let vs ← pyIter (pyOr vulnsV (.arr []))
    let items ← trivyVulns vs
    let restItems ← trivyResults rest
    return items ++ restItems

/-- `trivy_iter_items` from aggregate.py. -/
def trivyIterItems (obj : JVal) : Except Unit (List Item) :=
  match obj with
  | .obj fs => do
    let rs ← pyIter ((jGet fs "Results").getD (.arr []))
    trivyResults rs
  | _ => .ok []

/-- `detect_tool_from_path` from aggregate.py: a path component named
`trivy` or `clair` wins (case-folded); otherwise a dict with a
`Results` key is Trivy, everything else Clair. -/
def detectTool (pathParts : List String) (obj : JVal) : String :=
  let lp := pathParts.map pyLower
  if "trivy" ∈ lp then "trivy"
  else if "clair" ∈ lp then "clair"
  else
    match obj with
    | .obj fs => if (jGet fs "Results").isSome then "trivy" else "clair"
    | _ => "clair"

/-- `load_items` from aggregate.py.  The document argument is the result
of `read_json`: `none` when the file was unreadable, empty, not starting
with a bracket, or invalid JSON. -/
def loadItems (pathParts : List String) (doc : Option JVal) :
    Except Unit (Option String × List Item) :=
  match doc with
  | none => .ok (none, [])
  | some obj =>
    let tool := detectTool pathParts obj
    if tool == "trivy" then
      (trivyIterItems obj).map (fun items => (some "trivy", items))
    else
      (clairIterItems obj).map (fun items => (some "clair", items))

/-! ### aggregate.py: the agreement row's jaccard value

The CSV row stores `round((len(inter) / len(union)) if union else 1.0, 3)`.
Python's `round` on a float rounds half to even; the computation is
modelled over `ℚ`. -/

/-- Round to the nearest integer, ties to the even integer. -/
def roundHalfEven (q : ℚ) : ℤ :=
  let n := ⌊q⌋
  let f := q - n
  if f < 1/2 then n
  else if 1/2 < f then n + 1
  else if Even n then n else n + 1

/-- `round(x, 3)`: round half to even at the third decimal. -/
def pyRound3 (q : ℚ) : ℚ := (roundHalfEven (q * 1000) : ℚ) / 1000

/-- The jaccard ratio before rounding: `len(inter)/len(union)` with the
`1.0`-on-empty-union convention. -/
def jaccardExact (A B : Finset String) : ℚ :=
  if A ∪ B = ∅ then 1 else ((A ∩ B).card : ℚ) / ((A ∪ B).card : ℚ)

/-- The `jaccard` field written to agreement.csv. -/
def jaccardReported (A B : Finset String) : ℚ := pyRound3 (jaccardExact A B)

/-! ### `sorted` on strings

Python compares strings lexicographically on code points; the sort is
implemented as a structurally recursive insertion sort so that concrete
runs reduce inside the kernel. -/

/-- Code-point comparison of code-point sequences. -/
def lexLe : List Char → List Char → Bool
  | [], _ => true
  | _ :: _, [] => false
  | a :: as, b :: bs =>
    if a.toNat < b.toNat then true
    else if b.toNat < a.toNat then false
    else lexLe as bs

/-- `a <= b` on Python strings. -/
def strLe (a b : String) : Bool := lexLe a.data b.data

/-- Insert into a sorted list of strings. -/
def insertSorted (a : String) : List String → List String
  | [] => [a]
  | b :: rest => if strLe a b then a :: b :: rest else b :: insertSorted a rest

/-- `sorted` on a list of strings. -/
def sortStrings (l : List String) : List String := l.foldr insertSorted []

/-! ### comparator.py: day indexes and `compare_day_pair`

A day index is the Python structure `tool -> image -> set(CVE)`, kept as
an association list with `Finset String` leaves. -/

/-- `tool -> image -> set(CVE)` for one day. -/
abbrev DayIndex := List (String × List (String × Finset String))

/-- `idx.get(tool, \x7b\x7d)`. -/
def lookupImgs (idx : DayIndex) (t : String) : List (String × Finset String) :=
  ((idx.find? (fun p => p.1 == t)).map (·.2)).getD []

/-- `idx.get(tool, \x7b\x7d).get(img, set())`. -/
def lookupIds (idx : DayIndex) (t i : String) : Finset String :=
  (((lookupImgs idx t).find? (fun p => p.1 == i)).map (·.2)).getD ∅

/-- `sorted(set(keys1) | set(keys2))`: the union of two key lists,
deduplicated and sorted. -/
def unionKeys (xs ys : List String) : List String :=
  sortStrings ((xs ++ ys).dedup)

/-- The union of tools present in either index. -/
def unionTools (idx1 idx2 : DayIndex) : List String :=
  unionKeys (idx1.map (·.1)) (idx2.map (·.1))

/-- The union of images present for a tool in either index. -/
def unionImages (idx1 idx2 : DayIndex) (t : String) : List String :=
  unionKeys ((lookupImgs idx1 t).map (·.1)) ((lookupImgs idx2 t).map (·.1))

/-- One row of cve_pairwise_diffs.csv, carrying the full `added` and
`removed` sets (the CSV stores their counts and 5-element sorted
samples). -/
structure DiffRow where
  tool : String
  image : String
  added : Finset String
  removed : Finset String
deriving DecidableEq

/-- `compare_day_pair` from comparator.py, restricted to the per-row
part: for every tool in either index and every image under that tool in
either index, `add = new - old`, `rem = old - new`, and a row is emitted
exactly when `add` or `rem` is non-empty. -/
def compareDayPair (idx1 idx2 : DayIndex) : List DiffRow :=
  (unionTools idx1 idx2).flatMap (fun tool =>
    (unionImages idx1 idx2 tool).filterMap (fun img =>
      let old := lookupIds idx1 tool img
      let new := lookupIds idx2 tool img
      let add := new \ old
      let rem := old \ new
      if add ≠ ∅ ∨ rem ≠ ∅ then some ⟨tool, img, add, rem⟩ else none))

/-! ### comparator.py: first-seen index and leadership rows -/

/-- The first-seen accumulator `(tool, cve) -> date`; dates are days
(an integer timeline), matching `datetime.date` arithmetic in days. -/
abbrev FirstSeen := List ((String × String) × ℤ)

/-- Dictionary lookup in the first-seen accumulator. -/
def fsLookup (fs : FirstSeen) (k : String × String) : Option ℤ :=
  ((fs.find? (fun p => p.1 == k)).map (·.2))

/-- `if key not in first_seen: first_seen[key] = d`. -/
def fsInsert (d : ℤ) (fs : FirstSeen) (k : String × String) : FirstSeen :=
  if (fsLookup fs k).isSome then fs else fs ++ [(k, d)]

/-- A day index as the first-seen loop iterates it: per tool and image
the list of CVEs in the set's iteration order.  A Python set yields each
of its elements exactly once; nothing below depends on the order or on
the absence of duplicates. -/
abbrev ObsIndex := List (String × List (String × List String))

/-- The `(tool, cve)` observations of one day index, in iteration
order. -/
def obsList (idx : ObsIndex) : List (String × String) :=
  idx.flatMap (fun tp => tp.2.flatMap (fun ip => ip.2.map (fun c => (tp.1, c))))

/-- Folding one day of observations into the first-seen accumulator. -/
def observeDay (fs : FirstSeen) (d : ℤ) (idx : ObsIndex) : FirstSeen :=
  (obsList idx).foldl (fsInsert d) fs

/-- The first-seen loop of comparator.py's `main`: dates are processed
in the order of the given timeline. -/
def buildFirstSeen (tl : List (ℤ × ObsIndex)) : FirstSeen :=
  tl.foldl (fun fs p => observeDay fs p.1 p.2) []

/-- One row of cve_first_seen.csv. -/
structure FirstRow where
  cve : String
  firstTrivy : ℤ
  firstClair : ℤ
  leading : String
  dayDiff : ℤ
deriving DecidableEq

/-- The first-seen analysis of comparator.py's `main`: for every CVE
seen under both tools, `diff = first_trivy - first_clair`;
`diff == 0` is a tie, `diff < 0` means Trivy leads, otherwise Clair.
CVEs seen under only one tool are skipped. -/
def leadershipRows (fs : FirstSeen) : List FirstRow :=
  ((fs.map (fun p => p.1.2)).dedup).filterMap (fun c =>
    match fsLookup fs ("trivy", c), fsLookup fs ("clair", c) with
    | some dt, some dc =>
      some { cve := c, firstTrivy := dt, firstClair := dc,
             leading := if dt - dc = 0 then "tie" else if dt - dc < 0 then "trivy" else "clair",
             dayDiff := dt - dc }
    | _, _ => none)

/-! ### comparator.py: CVE extraction (`extract_cves_*`) -/

/-- `extract_cves_generic` from comparator.py: serialize the document
with `json.dumps` and collect every `CVE_RE` match (uppercased).  The
`except` branch (`str(js)`) is unreachable: every parsed JSON value is
serializable. -/
def extractCvesGeneric (js : JVal) : Finset String := (findCves (jDumps js)).toFinset

/-- The body of `extract_cves_trivy`'s inner loop for one entry `v`:
dicts contribute a full-match `VulnerabilityID` (or the nested
`vulnerability.id`), strings are scanned with `findall`, everything
else is ignored. -/
def trivyCveOfVuln (v : JVal) : Except Unit (Finset String) :=
  match v with
  | .obj fs => do
    let vidV := jGetD fs "VulnerabilityID"
    let vid ←
      if truthy vidV then pure vidV
      else do
        let nested := jGetD fs "vulnerability"
        let base ← if truthy nested then pure nested else pure (.obj [])
        match base with
        | .obj nfs => pure (jGetD nfs "id")
        | _ => .error ()
    match vid with
    | .str s => return (if isFullCve (pyUpper s) then {pyUpper s} else ∅)
    | _ => return ∅
  | .str s => .ok (findCves s).toFinset
  | _ => .ok ∅

/-- The inner loop of `extract_cves_trivy` over one result's
vulnerability list. -/
def trivyCvesOfVulns : List JVal → Except Unit (Finset String)
  | [] => .ok ∅
  | v :: rest => do
    let s ← trivyCveOfVuln v
    let srest ← trivyCvesOfVulns rest
    return s ∪ srest

/-- The outer loop of `extract_cves_trivy` over `Results`:
`(r or \x7b\x7d).get(...)` raises on truthy non-dict entries. -/
def trivyCvesOfResults : List JVal → Except Unit (Finset String)
  | [] => .ok ∅
  | r :: rest => do
    let rd := pyOr r (.obj [])
    let v1 ← pyGetD rd "Vulnerabilities"
    let v2 ← pyGetD rd "vulnerabilities"
    let vulns := pyOr (pyOr v1 v2) (.arr [])
    let vs ← pyIter vulns
    let s ← trivyCvesOfVulns vs
    let srest ← trivyCvesOfResults rest
    return s ∪ srest

/-- `extract_cves_trivy` from comparator.py. -/
def extractCvesTrivy (js : JVal) : Except Unit (Finset String) :=
  match js with
  | .obj fs => do
    let results := pyOr (pyOr (jGetD fs "Results") (jGetD fs "results")) (.arr [])
    let rs ← pyIter results
    trivyCvesOfResults rs
  | _ => .ok ∅

mutual

/-- The deep scan of `extract_cves_clair`: every string reachable as a
dict value or list item contributes its `findall` matches (dict keys are
not scanned). -/
def deepStringsVal : JVal → List String
  | .str s => [s]
  | .obj fs => deepStringsObj fs
  | .arr xs => deepStringsArr xs
  | _ => []

def deepStringsObj : List (String × JVal) → List String
  | [] => []
  | p :: rest => deepStringsVal p.2 ++ deepStringsObj rest

def deepStringsArr : List JVal → List String
  | [] => []
  | x :: rest => deepStringsVal x ++ deepStringsArr rest

end

/-- The first phase of `extract_cves_clair` over the entries of the
top-level vulnerability collection. -/
def clairCvesOfVulns : List JVal → Finset String
  | [] => ∅
  | v :: rest =>
    (match v with
     | .obj fs =>
       (match pyOr (jGetD fs "id") (jGetD fs "ID") with
        | .str s => if isFullCve (pyUpper s) then {pyUpper s} else (∅ : Finset String)
        | _ => ∅)
     | .str s => (findCves s).toFinset
     | _ => ∅) ∪ clairCvesOfVulns rest

/-- `extract_cves_clair` from comparator.py: the common-shape pass over
`vulnerabilities`, then the deep scan of the whole document. -/
def extractCvesClair (js : JVal) : Except Unit (Finset String) :=
  match js with
  | .obj fs => do
    let vulns := pyOr (pyOr (jGetD fs "vulnerabilities") (jGetD fs "Vulnerabilities")) (.arr [])
    let vs ← pyIter vulns
    return clairCvesOfVulns vs ∪ ((deepStringsVal js).flatMap (fun s => findCves s)).toFinset
  | _ => .ok ∅

/-- `extract_cves` from comparator.py: the tool-specific extractor, with
the generic fallback when it returns an empty (falsy) set. -/
def extractCves (tool : String) (js : JVal) : Except Unit (Finset String) :=
  if pyLower tool == "trivy" then
    (extractCvesTrivy js).map (fun s => if s = ∅ then extractCvesGeneric js else s)
  else if pyLower tool == "clair" then
    (extractCvesClair js).map (fun s => if s = ∅ then extractCvesGeneric js else s)
  else .ok (extractCvesGeneric js)

/-! ### sum_plots.py: severity rank and the per-(tool, image) merge -/

/-- The rank table of `sev_rank`. -/
def sevRankOrder : List (String × ℕ) :=
  [("CRITICAL", 4), ("HIGH", 3), ("MEDIUM", 2), ("LOW", 1), ("UNKNOWN", 0)]

/-- `sev_rank` from sum_plots.py (`order.get(sev, 0)`). -/
def sevRank (s : String) : ℕ :=
  ((sevRankOrder.find? (fun p => p.1 == s)).map (·.2)).getD 0

/-- The merge target `\x7bcve_id: severity\x7d` is an association list. -/
abbrev SevMap := List (String × String)

/-- Dictionary lookup in a merge target. -/
def mLookup (m : SevMap) (k : String) : Option String :=
  ((m.find? (fun p => p.1 == k)).map (·.2))

/-- `m[k] = v` on a dict: replace the existing entry, else append. -/
def mSet (m : SevMap) (k v : String) : SevMap :=
  if (mLookup m k).isSome then m.map (fun p => if p.1 = k then (p.1, v) else p)
  else m ++ [(k, v)]

/-- One record's merge in sum_plots.py `main`:
`prev = m.get(vid); if prev is None or sev_rank(sev) > sev_rank(prev): m[vid] = sev`. -/
def mergeStep (m : SevMap) (it : Item) : SevMap :=
  match mLookup m it.id with
  | none => mSet m it.id it.severity
  | some prev => if sevRank it.severity > sevRank prev then mSet m it.id it.severity else m

/-- The record loop of sum_plots.py `main` over one stream of items:
records with a falsy identifier are skipped (`if not vid: continue`). -/
def mergeList (items : List Item) : SevMap :=
  items.foldl (fun m it => if it.id = "" then m else mergeStep m it) []

/-- The conflict policy applied to one stored severity and one incoming
severity: keep the incoming one exactly when its rank is strictly higher
(an absent stored value always takes the incoming one). -/
def gS : Option String → String → String
  | none, sev => sev
  | some p, sev => if sevRank sev > sevRank p then sev else p

/-- The body of `compare_day_pair`'s inner loop for one (tool, image). -/
def rowOf (idx1 idx2 : DayIndex) (t i : String) : Option DiffRow :=
  let old := lookupIds idx1 t i
  let new := lookupIds idx2 t i
  let add := new \ old
  let rem := old \ new
  if add ≠ ∅ ∨ rem ≠ ∅ then some ⟨t, i, add, rem⟩ else none

/-- The body of the leadership loop for one CVE: a row exactly when the
CVE was first-seen under both tools. -/
def rowOfCve (fs : FirstSeen) (c : String) : Option FirstRow :=
  match fsLookup fs ("trivy", c), fsLookup fs ("clair", c) with
  | some dt, some dc =>
    some { cve := c, firstTrivy := dt, firstClair := dc,
           leading := if dt - dc = 0 then "tie" else if dt - dc < 0 then "trivy" else "clair",
           dayDiff := dt - dc }
  | _, _ => none

/-! ## Theorems -/

/-! ### Claim C7: risk score -/

/-- Claim C7: the risk score of a severity-count vector equals
`5*CRITICAL + 3*HIGH + 1*MEDIUM + 0.5*LOW + 0*UNKNOWN`, and the count
vector (hence the score) does not depend on the order in which the
records were counted. -/
theorem c7_risk_score_formula :
    (∀ c : SevCounts, riskScore c =
      5 * c.critical + 3 * c.high + 1 * c.medium + (1/2 : ℚ) * c.low + 0 * c.unknown)
    ∧ ∀ l1 l2 : List Item, l1.Perm l2 →
        severityCounts l1 = severityCounts l2 ∧
          riskScore (severityCounts l1) = riskScore (severityCounts l2) := by
  constructor
  · intro c
    have h1 : riskW "CRITICAL" = 5 := rfl
    have h2 : riskW "HIGH" = 3 := rfl
    have h3 : riskW "MEDIUM" = 1 := rfl
    have h4 : riskW "LOW" = 1/2 := rfl
    have h5 : riskW "UNKNOWN" = 0 := rfl
    simp only [riskScore, h1, h2, h3, h4, h5]
    ring
  · intro l1 l2 h
    have hc : severityCounts l1 = severityCounts l2 := by
      simp only [severityCounts, SevCounts.mk.injEq]
      exact ⟨(h.filter _).length_eq, (h.filter _).length_eq, (h.filter _).length_eq,
        (h.filter _).length_eq, (h.filter _).length_eq⟩
    exact ⟨hc, by rw [hc]⟩

/-- Witness for C7 at a concrete pair of permuted record lists. -/
theorem c7_risk_score_formula_witness :
    severityCounts [⟨"A", "HIGH"⟩, ⟨"B", "LOW"⟩] = severityCounts [⟨"B", "LOW"⟩, ⟨"A", "HIGH"⟩] ∧
      riskScore (severityCounts [⟨"A", "HIGH"⟩, ⟨"B", "LOW"⟩]) =
        riskScore (severityCounts [⟨"B", "LOW"⟩, ⟨"A", "HIGH"⟩]) :=
  c7_risk_score_formula.2 _ _ (by decide)

/-! ### Claim C9: diffing a snapshot against itself -/

/-- Claim C9: diffing a day index against itself yields empty `added`
and `removed` sets for every (tool, image), so no rows are emitted. -/
theorem c9_self_diff_no_rows (idx : DayIndex) :
    (∀ t i, lookupIds idx t i \ lookupIds idx t i = ∅) ∧ compareDayPair idx idx = [] := by
  refine ⟨fun t i => Finset.sdiff_self _, ?_⟩
  unfold compareDayPair
  rw [List.flatMap_eq_nil_iff]
  intro t _
  rw [List.filterMap_eq_nil_iff]
  intro i _
  simp [sdiff_self]

/-! ### Claim C2: the agreement jaccard value -/

/-- Half-to-even rounding of a value in `[0, m]` stays in `[0, m]`. -/
theorem roundHalfEven_bounds (q : ℚ) (h0 : 0 ≤ q) (h1 : q ≤ 1000) :
    0 ≤ roundHalfEven q ∧ roundHalfEven q ≤ 1000 := by
  have hn0 : (0 : ℤ) ≤ ⌊q⌋ := by
    rw [Int.le_floor]
    exact_mod_cast h0
  have hn1 : ⌊q⌋ ≤ 1000 := by
    have h := Int.floor_le_floor (α := ℚ) h1
    simpa using h
  unfold roundHalfEven
  simp only []
  split_ifs with hf1 hf2 he
  · exact ⟨hn0, hn1⟩
  all_goals
    refine ⟨by omega, ?_⟩
  all_goals
    have hge : (1 : ℚ)/2 ≤ q - ⌊q⌋ := le_of_not_lt hf1
  all_goals
    have hc : ((⌊q⌋ : ℚ)) < 1000 := by linarith
  all_goals
    have hc2 : ⌊q⌋ < 1000 := by exact_mod_cast hc
  all_goals omega

/-- `round(x, 3)` keeps values of `[0, 1]` inside `[0, 1]`. -/
theorem pyRound3_bounds (q : ℚ) (h0 : 0 ≤ q) (h1 : q ≤ 1) :
    0 ≤ pyRound3 q ∧ pyRound3 q ≤ 1 := by
  have hb := roundHalfEven_bounds (q * 1000) (by positivity) (by linarith)
  unfold pyRound3
  constructor
  · apply div_nonneg _ (by norm_num)
    exact_mod_cast hb.1
  · rw [div_le_one (by norm_num)]
    exact_mod_cast hb.2

/-- The exact jaccard ratio lies in `[0, 1]`. -/
theorem jaccardExact_bounds (A B : Finset String) :
    0 ≤ jaccardExact A B ∧ jaccardExact A B ≤ 1 := by
  unfold jaccardExact
  split_ifs with h
  · norm_num
  · have hpos : 0 < (A ∪ B).card :=
      Finset.card_pos.mpr (Finset.nonempty_iff_ne_empty.mpr h)
    have hle : (A ∩ B).card ≤ (A ∪ B).card :=
      Finset.card_le_card ((Finset.inter_subset_left).trans Finset.subset_union_left)
    constructor
    · positivity
    · rw [div_le_one (by exact_mod_cast hpos)]
      exact_mod_cast hle

/-- `round(1/3, 3) = 0.333`. -/
theorem pyRound3_one_third : pyRound3 (1/3 : ℚ) = 333/1000 := by
  have hfl : ⌊((1 : ℚ)/3 * 1000)⌋ = 333 := by
    rw [Int.floor_eq_iff]
    norm_num
  unfold pyRound3 roundHalfEven
  simp only []
  rw [hfl, if_pos (by push_cast; norm_num)]
  norm_num

/-- `round(1.0, 3) = 1.0`. -/
theorem pyRound3_one : pyRound3 (1 : ℚ) = 1 := by
  have hfl : ⌊((1 : ℚ) * 1000)⌋ = 1000 := by
    rw [Int.floor_eq_iff]
    norm_num
  unfold pyRound3 roundHalfEven
  simp only []
  rw [hfl, if_pos (by push_cast; norm_num)]
  norm_num

/-- Counterexample to claim C2 as stated: for `A = \x7b"a"\x7d` and
`B = \x7b"a","b","c"\x7d` the reported jaccard is `0.333`, which is not
`|A∩B| / |A∪B| = 1/3` — the CSV value is rounded to three decimals. -/
theorem c2_jaccard_reported_counterexample :
    jaccardReported {"a"} ({"a", "b", "c"} : Finset String) ≠
      ((({"a"} : Finset String) ∩ {"a", "b", "c"}).card : ℚ) /
        ((({"a"} : Finset String) ∪ {"a", "b", "c"}).card : ℚ) := by
  have hi : (({"a"} : Finset String) ∩ {"a", "b", "c"}).card = 1 := by decide
  have hu : (({"a"} : Finset String) ∪ {"a", "b", "c"}).card = 3 := by decide
  have hne : ({"a"} : Finset String) ∪ {"a", "b", "c"} ≠ ∅ := by decide
  unfold jaccardReported jaccardExact
  rw [if_neg hne, hi, hu]
  have h3 : ((1 : ℕ) : ℚ) / ((3 : ℕ) : ℚ) = 1/3 := by norm_num
  rw [h3, pyRound3_one_third]
  norm_num

/-- Claim C2 (amended): the reported jaccard equals
`|A∩B| / |A∪B|` rounded half-to-even at the third decimal when the union
is non-empty, equals exactly `1.0` when the union is empty, and always
lies in `[0, 1]`. -/
theorem c2_jaccard_reported_amended (A B : Finset String) :
    (A ∪ B = ∅ → jaccardReported A B = 1)
    ∧ (A ∪ B ≠ ∅ →
        jaccardReported A B = pyRound3 (((A ∩ B).card : ℚ) / ((A ∪ B).card : ℚ)))
    ∧ 0 ≤ jaccardReported A B ∧ jaccardReported A B ≤ 1 := by
  refine ⟨?_, ?_, ?_⟩
  · intro h
    unfold jaccardReported jaccardExact
    rw [if_pos h]
    exact pyRound3_one
  · intro h
    unfold jaccardReported jaccardExact
    rw [if_neg h]
  · have hex := jaccardExact_bounds A B
    exact pyRound3_bounds _ hex.1 hex.2

/-- Witness for C2 (amended) at concrete sets. -/
theorem c2_jaccard_reported_amended_witness :
    (({"a"} : Finset String) ∪ ∅ ≠ ∅ ∧
      jaccardReported {"a"} ∅ =
        pyRound3 (((({"a"} : Finset String) ∩ ∅).card : ℚ) /
          ((({"a"} : Finset String) ∪ ∅).card : ℚ))) ∧
      (∅ : Finset String) ∪ ∅ = ∅ ∧ jaccardReported ∅ ∅ = 1 :=
  ⟨⟨by decide, (c2_jaccard_reported_amended {"a"} ∅).2.1 (by decide)⟩,
    ⟨by decide, (c2_jaccard_reported_amended ∅ ∅).1 (by decide)⟩⟩


/-! ### Claim C6: the severity merge policy -/

/-- `sev_rank` is injective on the five buckets. -/
theorem sevRank_inj (s1 s2 : String) (h1 : s1 ∈ SEV_BUCKETS) (h2 : s2 ∈ SEV_BUCKETS)
    (heq : sevRank s1 = sevRank s2) : s1 = s2 := by
  fin_cases h1 <;> fin_cases h2 <;> revert heq <;> decide

/-- The conflict policy commutes on bucket severities. -/
theorem gS_comm (a : Option String) (sx sy : String)
    (hx : sx ∈ SEV_BUCKETS) (hy : sy ∈ SEV_BUCKETS) :
    gS (some (gS a sx)) sy = gS (some (gS a sy)) sx := by
  by_cases hxy : sevRank sx = sevRank sy
  · rw [sevRank_inj sx sy hx hy hxy]
  · cases a <;> simp only [gS] <;> split_ifs <;> first | rfl | (exfalso; omega)

/-- The empty merge target has no entries. -/
theorem mLookup_nil (k : String) : mLookup [] k = none := rfl

/-- Lookup distributes over a cons cell. -/
theorem mLookup_cons (p : String × String) (rest : SevMap) (k' : String) :
    mLookup (p :: rest) k' = if p.1 = k' then some p.2 else mLookup rest k' := by
  by_cases h : p.1 = k'
  · have hb : (p.1 == k') = true := beq_iff_eq.mpr h
    simp [mLookup, List.find?, hb, h]
  · have hb : (p.1 == k') = false := beq_eq_false_iff_ne.mpr h
    simp [mLookup, List.find?, hb, h]

/-- Lookup after appending a fresh entry. -/
theorem mLookup_append_single (m : SevMap) (k v k' : String) :
    mLookup (m ++ [(k, v)]) k' =
      match mLookup m k' with
      | some x => some x
      | none => if k' = k then some v else none := by
  induction m with
  | nil =>
    simp only [List.nil_append, mLookup_cons, mLookup_nil]
    by_cases hk : k' = k
    · simp [hk]
    · rw [if_neg hk, if_neg (fun h => hk (Eq.symm h))]
  | cons p rest ih =>
    simp only [List.cons_append, mLookup_cons]
    by_cases hp : p.1 = k' <;> simp [hp, ih]

/-- Lookup after replacing the value stored under a key. -/
theorem mLookup_replace (m : SevMap) (k v k' : String) :
    mLookup (m.map (fun p => if p.1 = k then (p.1, v) else p)) k' =
      if k' = k then (mLookup m k).map (fun _ => v) else mLookup m k' := by
  induction m with
  | nil => simp [mLookup]
  | cons p rest ih =>
    simp only [List.map_cons]
    by_cases hpk : p.1 = k
    · rw [if_pos hpk]
      by_cases hk' : k' = k
      · subst hk'
        simp [mLookup_cons, hpk, ih]
      · have hp2 : ¬ p.1 = k' := fun h => hk' (by rw [← h, hpk])
        simp [mLookup_cons, hp2, ih, hk']
    · rw [if_neg hpk]
      by_cases hp2 : p.1 = k'
      · have hk' : ¬ k' = k := fun h => hpk (by rw [hp2, h])
        simp [mLookup_cons, hp2, hk']
      · simp [mLookup_cons, hp2, hpk, ih]

/-- Lookup after a dictionary assignment `m[k] = v`. -/
theorem mLookup_mSet (m : SevMap) (k v k' : String) :
    mLookup (mSet m k v) k' = if k' = k then some v else mLookup m k' := by
  unfold mSet
  split_ifs with hs hk hk
  · subst hk
    rw [mLookup_replace, if_pos rfl]
    obtain ⟨x, hx⟩ := Option.isSome_iff_exists.mp hs
    simp [hx]
  · rw [mLookup_replace, if_neg hk]
  · subst hk
    rw [mLookup_append_single]
    rw [Option.not_isSome_iff_eq_none] at hs
    simp [hs]
  · rw [mLookup_append_single]
    cases h : mLookup m k' with
    | some x => rfl
    | none => simp [hk]

/-- Lookup after one merge step: the stored value under the record's own
identifier becomes the conflict policy's choice, others are untouched. -/
theorem mLookup_mergeStep (m : SevMap) (it : Item) (k : String) :
    mLookup (mergeStep m it) k =
      if it.id = k then some (gS (mLookup m k) it.severity) else mLookup m k := by
  unfold mergeStep
  by_cases hk : it.id = k
  · subst hk
    cases h : mLookup m it.id with
    | none => simp [h, mLookup_mSet, gS]
    | some prev =>
      simp only [h, gS]
      split_ifs with hgt
      · simp [mLookup_mSet]
      · simp [h]
  · cases h : mLookup m it.id with
    | none => simp [h, mLookup_mSet, hk, Ne.symm hk]
    | some prev =>
      simp only [h]
      split_ifs with hgt
      · simp [mLookup_mSet, hk, Ne.symm hk]
      · simp [hk]

/-- Merging a stream of records folds the conflict policy over exactly
the records bearing the queried identifier. -/
theorem mLookup_mergeFold (l : List Item) (m : SevMap) (k : String) (hk : k ≠ "") :
    mLookup (l.foldl (fun m it => if it.id = "" then m else mergeStep m it) m) k =
      (l.filter (fun it => it.id == k)).foldl (fun a it => some (gS a it.severity))
        (mLookup m k) := by
  induction l generalizing m with
  | nil => rfl
  | cons it rest ih =>
    simp only [List.foldl_cons, List.filter_cons]
    by_cases hid : it.id = ""
    · have hne : (it.id == k) = false := by
        refine beq_eq_false_iff_ne.mpr (fun h => hk ?_)
        rw [← h, hid]
      rw [if_pos hid, hne]
      simp only [Bool.false_eq_true, if_false]
      exact ih m
    · rw [if_neg hid]
      by_cases hik : it.id = k
      · have hb : (it.id == k) = true := beq_iff_eq.mpr hik
        rw [hb]
        simp only [if_true, List.foldl_cons]
        rw [ih (mergeStep m it), mLookup_mergeStep, if_pos hik]
      · have hb : (it.id == k) = false := beq_eq_false_iff_ne.mpr hik
        rw [hb]
        simp only [Bool.false_eq_true, if_false]
        rw [ih (mergeStep m it), mLookup_mergeStep, if_neg hik]

/-- Records with a falsy identifier are never stored. -/
theorem mLookup_mergeList_empty_key (l : List Item) :
    mLookup (mergeList l) "" = none := by
  unfold mergeList
  have h : ∀ m : SevMap, mLookup m "" = none →
      mLookup (l.foldl (fun m it => if it.id = "" then m else mergeStep m it) m) "" = none := by
    induction l with
    | nil => exact fun m hm => hm
    | cons it rest ih =>
      intro m hm
      simp only [List.foldl_cons]
      by_cases hid : it.id = ""
      · rw [if_pos hid]
        exact ih m hm
      · rw [if_neg hid]
        apply ih
        rw [mLookup_mergeStep, if_neg hid, hm]
  exact h [] rfl

/-- The folded conflict policy yields a severity attained by some input
record (or the initial value) and of maximal rank among all inputs. -/
theorem gS_fold_spec (fl : List Item) (a : Option String) (s : String)
    (h : fl.foldl (fun a it => some (gS a it.severity)) a = some s) :
    (a = some s ∨ ∃ it ∈ fl, it.severity = s) ∧
      (∀ it ∈ fl, sevRank it.severity ≤ sevRank s) ∧
      (∀ p, a = some p → sevRank p ≤ sevRank s) := by
  induction fl generalizing a with
  | nil =>
    simp only [List.foldl_nil] at h
    exact ⟨Or.inl h, by simp, fun p hp => by rw [hp] at h; cases h; exact le_refl _⟩
  | cons it rest ih =>
    simp only [List.foldl_cons] at h
    obtain ⟨h1, h2, h3⟩ := ih _ h
    have hstep : ∀ q, some (gS a it.severity) = some q →
        (q = it.severity ∨ a = some q) ∧ sevRank it.severity ≤ sevRank q ∧
          (∀ p, a = some p → sevRank p ≤ sevRank q) := by
      intro q hq
      cases a with
      | none =>
        simp only [gS] at hq
        cases hq
        exact ⟨Or.inl rfl, le_refl _, by simp⟩
      | some p =>
        simp only [gS] at hq
        split_ifs at hq with hgt
        · cases hq
          exact ⟨Or.inl rfl, le_refl _, fun p' hp' => by cases hp'; omega⟩
        · cases hq
          exact ⟨Or.inr rfl, by omega, fun p' hp' => by cases hp'; exact le_refl _⟩
    constructor
    · rcases h1 with h1 | ⟨it', hmem, hsev⟩
      · obtain ⟨hq1, _, _⟩ := hstep s h1
        rcases hq1 with hq1 | hq1
        · exact Or.inr ⟨it, List.mem_cons_self _ _, hq1.symm⟩
        · exact Or.inl hq1
      · exact Or.inr ⟨it', List.mem_cons_of_mem _ hmem, hsev⟩
    constructor
    · intro it' hmem
      rcases List.mem_cons.mp hmem with heq | hmem'
      · subst heq
        exact (h3 _ rfl).trans' (hstep _ rfl).2.1
      · exact h2 it' hmem'
    · intro p hp
      exact (h3 _ rfl).trans' ((hstep _ rfl).2.2 p hp)

/-- Claim C6: when records carrying bucket severities are merged, the
retained severity for every identifier is one of its records' severities
and has maximal rank; and the final identifier-to-severity map does not
depend on the order of the records. -/
theorem c6_merge_max_rank_order_independent (l1 l2 : List Item)
    (hb : ∀ it ∈ l1, it.severity ∈ SEV_BUCKETS) (hp : l1.Perm l2) :
    (∀ vid, mLookup (mergeList l1) vid = mLookup (mergeList l2) vid)
    ∧ ∀ vid s, mLookup (mergeList l1) vid = some s →
        (∃ it ∈ l1, it.id = vid ∧ it.severity = s) ∧
          ∀ it ∈ l1, it.id = vid → sevRank it.severity ≤ sevRank s := by
  constructor
  · intro vid
    by_cases hv : vid = ""
    · rw [hv, mLookup_mergeList_empty_key, mLookup_mergeList_empty_key]
    · unfold mergeList
      rw [mLookup_mergeFold _ _ _ hv, mLookup_mergeFold _ _ _ hv]
      apply List.Perm.foldl_eq' (hp.filter _)
      intro x hx y hy z
      have hx' : x.severity ∈ SEV_BUCKETS := hb x (List.mem_of_mem_filter hx)
      have hy' : y.severity ∈ SEV_BUCKETS := hb y (List.mem_of_mem_filter hy)
      exact congrArg some (gS_comm z x.severity y.severity hx' hy')
  · intro vid s hsome
    by_cases hv : vid = ""
    · rw [hv, mLookup_mergeList_empty_key] at hsome
      exact absurd hsome (by simp)
    · unfold mergeList at hsome
      rw [mLookup_mergeFold _ _ _ hv] at hsome
      obtain ⟨h1, h2, _⟩ := gS_fold_spec _ _ _ hsome
      constructor
      · rcases h1 with h1 | ⟨it, hmem, hsev⟩
        · exact absurd h1 (by simp [mLookup])
        · have hmf := List.mem_filter.mp hmem
          exact ⟨it, hmf.1, beq_iff_eq.mp hmf.2, hsev⟩
      · intro it hmem hid
        exact h2 it (List.mem_filter.mpr ⟨hmem, beq_iff_eq.mpr hid⟩)

/-- Witness for C6: two orderings of the same records merge to a map
agreeing on the contested identifier. -/
theorem c6_merge_max_rank_order_independent_witness :
    mLookup (mergeList [⟨"CVE-2024-0001", "UNKNOWN"⟩, ⟨"CVE-2024-0001", "HIGH"⟩,
        ⟨"CVE-2024-0002", "LOW"⟩]) "CVE-2024-0001" =
      mLookup (mergeList [⟨"CVE-2024-0002", "LOW"⟩, ⟨"CVE-2024-0001", "HIGH"⟩,
        ⟨"CVE-2024-0001", "UNKNOWN"⟩]) "CVE-2024-0001" :=
  (c6_merge_max_rank_order_independent _ _ (by decide) (by decide)).1 "CVE-2024-0001"

/-! ### Claim C1: the per-(tool, image) diff rows -/

/-- `lexLe` is total. -/
theorem lexLe_total (l1 l2 : List Char) : lexLe l1 l2 ∨ lexLe l2 l1 := by
  induction l1 generalizing l2 with
  | nil => left; rfl
  | cons a as ih =>
    cases l2 with
    | nil => right; rfl
    | cons b bs =>
      simp only [lexLe]
      by_cases h1 : a.toNat < b.toNat
      · left; simp [h1]
      · by_cases h2 : b.toNat < a.toNat
        · right; simp [h2]
        · rcases ih bs with h | h <;> [left; right] <;> simp [h1, h2, h]

/-- Characters with equal code points are equal. -/
theorem char_toNat_inj (a b : Char) (h : a.toNat = b.toNat) : a = b := by
  rcases a with ⟨⟨⟨av, hav⟩⟩, ha⟩
  rcases b with ⟨⟨⟨bv, hbv⟩⟩, hb⟩
  simp only [Char.toNat, UInt32.toNat] at h
  simp_all

/-- `lexLe` is antisymmetric. -/
theorem lexLe_antisymm (l1 l2 : List Char) (h1 : lexLe l1 l2) (h2 : lexLe l2 l1) :
    l1 = l2 := by
  induction l1 generalizing l2 with
  | nil =>
    cases l2 with
    | nil => rfl
    | cons b bs => simp [lexLe] at h2
  | cons a as ih =>
    cases l2 with
    | nil => simp [lexLe] at h1
    | cons b bs =>
      simp only [lexLe] at h1 h2
      by_cases hab : a.toNat < b.toNat
      · rw [if_neg (by omega : ¬ b.toNat < a.toNat), if_pos hab] at h2
        exact absurd h2 (by simp)
      · by_cases hba : b.toNat < a.toNat
        · rw [if_neg hab, if_pos hba] at h1
          exact absurd h1 (by simp)
        · have heq : a = b := char_toNat_inj a b (by omega)
          rw [if_neg hab, if_neg hba] at h1
          rw [if_neg hba, if_neg hab] at h2
          rw [heq, ih bs h1 h2]

/-- `strLe` is total. -/
theorem strLe_total (a b : String) : strLe a b ∨ strLe b a := lexLe_total _ _

/-- `strLe` is antisymmetric. -/
theorem strLe_antisymm (a b : String) (h1 : strLe a b) (h2 : strLe b a) : a = b := by
  rcases a with ⟨la⟩
  rcases b with ⟨lb⟩
  exact congrArg String.mk (lexLe_antisymm la lb h1 h2)

/-- Membership in an insertion. -/
theorem mem_insertSorted (a x : String) (l : List String) :
    x ∈ insertSorted a l ↔ x = a ∨ x ∈ l := by
  induction l with
  | nil => simp [insertSorted]
  | cons b rest ih =>
    simp only [insertSorted]
    split_ifs with h
    · simp [List.mem_cons]
    · simp only [List.mem_cons, ih]
      tauto

/-- Membership in the sorted copy. -/
theorem mem_sortStrings (x : String) (l : List String) :
    x ∈ sortStrings l ↔ x ∈ l := by
  induction l with
  | nil => simp [sortStrings]
  | cons b rest ih =>
    simp only [sortStrings, List.foldr_cons] at ih ⊢
    rw [mem_insertSorted, ih, List.mem_cons]

/-- Inserting a fresh element preserves `Nodup`. -/
theorem insertSorted_nodup (a : String) (l : List String) (ha : a ∉ l) (hl : l.Nodup) :
    (insertSorted a l).Nodup := by
  induction l with
  | nil => simp [insertSorted]
  | cons b rest ih =>
    simp only [insertSorted]
    rw [List.mem_cons, not_or] at ha
    split_ifs with h
    · refine List.Pairwise.cons ?_ hl
      intro x hx
      rcases List.mem_cons.mp hx with rfl | hx
      · exact ha.1
      · exact fun heq => ha.2 (heq ▸ hx)
    · rw [List.nodup_cons] at hl ⊢
      refine ⟨?_, ih ha.2 hl.2⟩
      rw [mem_insertSorted]
      rintro (rfl | hb)
      · exact ha.1 rfl
      · exact hl.1 hb

/-- Sorting preserves `Nodup`. -/
theorem sortStrings_nodup (l : List String) (h : l.Nodup) : (sortStrings l).Nodup := by
  induction l with
  | nil => simp [sortStrings]
  | cons b rest ih =>
    rw [List.nodup_cons] at h
    simp only [sortStrings, List.foldr_cons]
    refine insertSorted_nodup _ _ ?_ (ih h.2)
    intro hmem
    exact h.1 ((mem_sortStrings b rest).mp hmem)

/-- The key union is duplicate-free. -/
theorem unionKeys_nodup (xs ys : List String) : (unionKeys xs ys).Nodup :=
  sortStrings_nodup _ (List.nodup_dedup _)

/-- The key union holds exactly the keys of either list. -/
theorem mem_unionKeys (xs ys : List String) (a : String) :
    a ∈ unionKeys xs ys ↔ a ∈ xs ∨ a ∈ ys := by
  unfold unionKeys
  rw [mem_sortStrings, List.mem_dedup, List.mem_append]

/-- `compare_day_pair` written through `rowOf`. -/
theorem compareDayPair_eq_rowOf (idx1 idx2 : DayIndex) :
    compareDayPair idx1 idx2 =
      (unionTools idx1 idx2).flatMap
        (fun t => (unionImages idx1 idx2 t).filterMap (rowOf idx1 idx2 t)) := rfl

/-- A produced row names its own tool and image. -/
theorem rowOf_eq_some (idx1 idx2 : DayIndex) (t i : String) (r : DiffRow)
    (h : rowOf idx1 idx2 t i = some r) : r.tool = t ∧ r.image = i := by
  unfold rowOf at h
  simp only [] at h
  split_ifs at h
  cases h
  exact ⟨rfl, rfl⟩

/-- Membership in the emitted rows, characterized. -/
theorem mem_compareDayPair (idx1 idx2 : DayIndex) (r : DiffRow) :
    r ∈ compareDayPair idx1 idx2 ↔
      r.tool ∈ unionTools idx1 idx2 ∧ r.image ∈ unionImages idx1 idx2 r.tool ∧
        (lookupIds idx2 r.tool r.image \ lookupIds idx1 r.tool r.image ≠ ∅ ∨
          lookupIds idx1 r.tool r.image \ lookupIds idx2 r.tool r.image ≠ ∅) ∧
        r.added = lookupIds idx2 r.tool r.image \ lookupIds idx1 r.tool r.image ∧
        r.removed = lookupIds idx1 r.tool r.image \ lookupIds idx2 r.tool r.image := by
  unfold compareDayPair
  rw [List.mem_flatMap]
  constructor
  · rintro ⟨t, ht, hr⟩
    rw [List.mem_filterMap] at hr
    obtain ⟨i, hi, hf⟩ := hr
    simp only [] at hf
    split_ifs at hf with hc
    cases hf
    exact ⟨ht, hi, hc, rfl, rfl⟩
  · rintro ⟨ht, hi, hc, ha, hrm⟩
    refine ⟨r.tool, ht, ?_⟩
    rw [List.mem_filterMap]
    refine ⟨r.image, hi, ?_⟩
    simp only []
    rw [if_pos hc]
    cases r with
    | mk t i a rm =>
      simp only at ha hrm ⊢
      rw [ha, hrm]

/-- The emitted (tool, image) keys are duplicate-free. -/
theorem compareDayPair_keys_nodup (idx1 idx2 : DayIndex) :
    ((compareDayPair idx1 idx2).map (fun r => (r.tool, r.image))).Nodup := by
  rw [compareDayPair_eq_rowOf, List.map_flatMap, List.nodup_flatMap]
  constructor
  · intro t _
    rw [List.map_filterMap]
    refine List.Nodup.filterMap ?_ (unionKeys_nodup _ _)
    intro i1 i2 p hp1 hp2
    rw [Option.mem_def, Option.map_eq_some'] at hp1 hp2
    obtain ⟨r1, hr1, hpr1⟩ := hp1
    obtain ⟨r2, hr2, hpr2⟩ := hp2
    obtain ⟨-, hi1⟩ := rowOf_eq_some _ _ _ _ _ hr1
    obtain ⟨-, hi2⟩ := rowOf_eq_some _ _ _ _ _ hr2
    rw [← hpr1] at hpr2
    have h : r1.image = r2.image := (congrArg Prod.snd hpr2).symm
    rw [← hi1, ← hi2, h]
  · refine List.Pairwise.imp ?_ (unionKeys_nodup _ _)
    intro t1 t2 hne
    intro p hp1 hp2
    simp only [Function.onFun, List.map_filterMap, List.mem_filterMap] at hp1 hp2
    obtain ⟨i1, _, hf1⟩ := hp1
    obtain ⟨i2, _, hf2⟩ := hp2
    rw [Option.map_eq_some'] at hf1 hf2
    obtain ⟨r1, hr1, hpr1⟩ := hf1
    obtain ⟨r2, hr2, hpr2⟩ := hf2
    obtain ⟨ht1, -⟩ := rowOf_eq_some _ _ _ _ _ hr1
    obtain ⟨ht2, -⟩ := rowOf_eq_some _ _ _ _ _ hr2
    apply hne
    rw [← ht1, ← ht2]
    rw [← hpr1] at hpr2
    exact (congrArg Prod.fst hpr2).symm

/-- Opposite set differences are disjoint. -/
theorem sdiff_inter_sdiff_empty (A B : Finset String) : (B \ A) ∩ (A \ B) = ∅ := by
  ext x
  simp only [Finset.mem_inter, Finset.mem_sdiff, Finset.not_mem_empty, iff_false]
  tauto

/-- Claim C1: over the union of tools and images of the two day indexes,
`added = idsNew - idsOld` and `removed = idsOld - idsNew`; exactly one
row is emitted per (tool, image) whose `added` or `removed` is
non-empty; and every row's `added` and `removed` are disjoint. -/
theorem c1_differ_rows (idx1 idx2 : DayIndex) :
    ((compareDayPair idx1 idx2).map (fun r => (r.tool, r.image))).Nodup
    ∧ (∀ r ∈ compareDayPair idx1 idx2,
        r.added = lookupIds idx2 r.tool r.image \ lookupIds idx1 r.tool r.image ∧
        r.removed = lookupIds idx1 r.tool r.image \ lookupIds idx2 r.tool r.image ∧
        (r.added ≠ ∅ ∨ r.removed ≠ ∅) ∧ r.added ∩ r.removed = ∅)
    ∧ ∀ t i, (t ∈ unionTools idx1 idx2 ∧ i ∈ unionImages idx1 idx2 t ∧
          (lookupIds idx2 t i \ lookupIds idx1 t i ≠ ∅ ∨
            lookupIds idx1 t i \ lookupIds idx2 t i ≠ ∅)) ↔
        ∃ r ∈ compareDayPair idx1 idx2, r.tool = t ∧ r.image = i := by
  refine ⟨compareDayPair_keys_nodup idx1 idx2, ?_, ?_⟩
  · intro r hr
    rw [mem_compareDayPair] at hr
    obtain ⟨-, -, hc, ha, hrm⟩ := hr
    refine ⟨ha, hrm, ?_, ?_⟩
    · rw [ha, hrm]
      exact hc
    · rw [ha, hrm]
      exact sdiff_inter_sdiff_empty _ _
  · intro t i
    constructor
    · rintro ⟨ht, hi, hc⟩
      refine ⟨⟨t, i, lookupIds idx2 t i \ lookupIds idx1 t i,
        lookupIds idx1 t i \ lookupIds idx2 t i⟩, ?_, rfl, rfl⟩
      rw [mem_compareDayPair]
      exact ⟨ht, hi, hc, rfl, rfl⟩
    · rintro ⟨r, hr, ht, hi⟩
      subst ht
      subst hi
      rw [mem_compareDayPair] at hr
      exact ⟨hr.1, hr.2.1, hr.2.2.1⟩

/-- Witness for C1 at a concrete pair of day indexes. -/
theorem c1_differ_rows_witness :
    (⟨"trivy", "img", {"CVE-2024-0002"}, ∅⟩ : DiffRow) ∈
        compareDayPair [("trivy", [("img", {"CVE-2024-0001"})])]
          [("trivy", [("img", {"CVE-2024-0001", "CVE-2024-0002"})])] ∧
      ({"CVE-2024-0002"} : Finset String) =
          lookupIds [("trivy", [("img", {"CVE-2024-0001", "CVE-2024-0002"})])] "trivy" "img" \
            lookupIds [("trivy", [("img", {"CVE-2024-0001"})])] "trivy" "img" ∧
        (∅ : Finset String) =
          lookupIds [("trivy", [("img", {"CVE-2024-0001"})])] "trivy" "img" \
            lookupIds [("trivy", [("img", {"CVE-2024-0001", "CVE-2024-0002"})])] "trivy" "img" ∧
        (({"CVE-2024-0002"} : Finset String) ≠ ∅ ∨ (∅ : Finset String) ≠ ∅) ∧
        ({"CVE-2024-0002"} : Finset String) ∩ (∅ : Finset String) = ∅ := by
  refine ⟨by decide, ?_⟩
  exact (c1_differ_rows _ _).2.1 ⟨"trivy", "img", {"CVE-2024-0002"}, ∅⟩ (by decide)

/-! ### Claim C3: the first-seen index -/

/-- The empty first-seen accumulator has no entries. -/
theorem fsLookup_nil (k : String × String) : fsLookup [] k = none := rfl

/-- First-seen lookup distributes over a cons cell. -/
theorem fsLookup_cons (p : (String × String) × ℤ) (rest : FirstSeen) (k : String × String) :
    fsLookup (p :: rest) k = if p.1 = k then some p.2 else fsLookup rest k := by
  by_cases h : p.1 = k
  · have hb : (p.1 == k) = true := beq_iff_eq.mpr h
    simp [fsLookup, List.find?, hb, h]
  · have hb : (p.1 == k) = false := beq_eq_false_iff_ne.mpr h
    simp [fsLookup, List.find?, hb, h]

/-- First-seen lookup after appending a fresh entry. -/
theorem fsLookup_append_single (fs : FirstSeen) (k' : String × String) (d : ℤ)
    (k : String × String) :
    fsLookup (fs ++ [(k', d)]) k =
      match fsLookup fs k with
      | some v => some v
      | none => if k = k' then some d else none := by
  induction fs with
  | nil =>
    simp only [List.nil_append, fsLookup_cons, fsLookup_nil]
    by_cases hk : k = k'
    · simp [hk]
    · rw [if_neg hk, if_neg (fun h => hk (Eq.symm h))]
  | cons p rest ih =>
    simp only [List.cons_append, fsLookup_cons]
    by_cases hp : p.1 = k <;> simp [hp, ih]

/-- Lookup after one insert-if-absent step. -/
theorem fsLookup_fsInsert (d : ℤ) (fs : FirstSeen) (k' k : String × String) :
    fsLookup (fsInsert d fs k') k =
      match fsLookup fs k with
      | some v => some v
      | none => if k = k' then some d else none := by
  unfold fsInsert
  by_cases hs : (fsLookup fs k').isSome
  · rw [if_pos hs]
    cases h : fsLookup fs k with
    | some v => rfl
    | none =>
      by_cases hk : k = k'
      · subst hk
        rw [h] at hs
        simp at hs
      · simp [hk]
  · rw [if_neg hs, fsLookup_append_single]

/-- Lookup after folding one day of observations with a common date. -/
theorem fsLookup_foldl_fsInsert (l : List (String × String)) (d : ℤ) (fs : FirstSeen)
    (k : String × String) :
    fsLookup (l.foldl (fsInsert d) fs) k =
      match fsLookup fs k with
      | some v => some v
      | none => if k ∈ l then some d else none := by
  induction l generalizing fs with
  | nil =>
    simp only [List.foldl_nil, List.not_mem_nil, if_false]
    cases fsLookup fs k <;> rfl
  | cons k0 rest ih =>
    simp only [List.foldl_cons]
    rw [ih, fsLookup_fsInsert]
    cases h : fsLookup fs k with
    | some v => rfl
    | none =>
      by_cases hk : k = k0
      · simp [hk, List.mem_cons]
      · simp only [if_neg hk, List.mem_cons]
        by_cases hr : k ∈ rest <;> simp [hr, hk]

/-- Lookup after one day: an absent key becomes the day date exactly
when the key is observed that day. -/
theorem fsLookup_observeDay (fs : FirstSeen) (d : ℤ) (idx : ObsIndex) (k : String × String) :
    fsLookup (observeDay fs d idx) k =
      match fsLookup fs k with
      | some v => some v
      | none => if k ∈ obsList idx then some d else none :=
  fsLookup_foldl_fsInsert _ _ _ _

/-- Lookup after folding a timeline: an absent key gets the date of the
first timeline entry observing it. -/
theorem fsLookup_buildFold (tl : List (ℤ × ObsIndex)) (fs : FirstSeen) (k : String × String) :
    fsLookup (tl.foldl (fun fs p => observeDay fs p.1 p.2) fs) k =
      match fsLookup fs k with
      | some v => some v
      | none => (tl.find? (fun p => decide (k ∈ obsList p.2))).map Prod.fst := by
  induction tl generalizing fs with
  | nil =>
    simp only [List.foldl_nil, List.find?]
    cases fsLookup fs k <;> rfl
  | cons p rest ih =>
    simp only [List.foldl_cons, List.find?]
    rw [ih, fsLookup_observeDay]
    cases h : fsLookup fs k with
    | some v => rfl
    | none =>
      by_cases hobs : k ∈ obsList p.2
      · simp [hobs]
      · simp [hobs]

/-- In a timeline with non-decreasing dates, the first entry observing a
key carries the minimal date among all entries observing it. -/
theorem find?_first_min (tl : List (ℤ × ObsIndex)) (k : String × String)
    (hs : (tl.map Prod.fst).Pairwise (· ≤ ·)) (p : ℤ × ObsIndex)
    (hf : tl.find? (fun q => decide (k ∈ obsList q.2)) = some p) :
    p ∈ tl ∧ k ∈ obsList p.2 ∧ ∀ q ∈ tl, k ∈ obsList q.2 → p.1 ≤ q.1 := by
  induction tl with
  | nil => cases hf
  | cons hd rest ih =>
    rw [List.map_cons, List.pairwise_cons] at hs
    rw [List.find?_cons] at hf
    cases hdec : decide (k ∈ obsList hd.2) with
    | true =>
      rw [hdec] at hf
      have hhd : k ∈ obsList hd.2 := of_decide_eq_true hdec
      cases hf
      refine ⟨List.mem_cons_self _ _, hhd, ?_⟩
      intro q hq _
      rcases List.mem_cons.mp hq with rfl | hq
      · exact le_refl _
      · exact hs.1 q.1 (List.mem_map_of_mem _ hq)
    | false =>
      rw [hdec] at hf
      have hhd : k ∉ obsList hd.2 := of_decide_eq_false hdec
      obtain ⟨hmem, hobs, hmin⟩ := ih hs.2 hf
      refine ⟨List.mem_cons_of_mem _ hmem, hobs, ?_⟩
      intro q hq hqobs
      rcases List.mem_cons.mp hq with rfl | hq
      · exact absurd hqobs hhd
      · exact hmin q hq hqobs

/-- Claim C3: with the timeline processed in non-decreasing date order,
an entry of the first-seen index is never changed by appending later
observations; a stored date is a date at which the pair was observed and
is minimal among all its observation dates; and every observed pair is
stored. -/
theorem c3_first_seen_monotonic (tl : List (ℤ × ObsIndex))
    (hs : (tl.map Prod.fst).Pairwise (· ≤ ·)) :
    (∀ (k : String × String) (v : ℤ) (tl2 : List (ℤ × ObsIndex)),
        fsLookup (buildFirstSeen tl) k = some v →
        fsLookup (buildFirstSeen (tl ++ tl2)) k = some v)
    ∧ (∀ (k : String × String) (d : ℤ), fsLookup (buildFirstSeen tl) k = some d →
        (∃ p ∈ tl, p.1 = d ∧ k ∈ obsList p.2) ∧ ∀ p ∈ tl, k ∈ obsList p.2 → d ≤ p.1)
    ∧ ∀ (k : String × String) (p : ℤ × ObsIndex), p ∈ tl → k ∈ obsList p.2 →
        (fsLookup (buildFirstSeen tl) k).isSome := by
  have hchar : ∀ k, fsLookup (buildFirstSeen tl) k =
      (tl.find? (fun p => decide (k ∈ obsList p.2))).map Prod.fst := by
    intro k
    unfold buildFirstSeen
    rw [fsLookup_buildFold]
    rfl
  refine ⟨?_, ?_, ?_⟩
  · intro k v tl2 h
    unfold buildFirstSeen
    rw [List.foldl_append]
    rw [fsLookup_buildFold]
    unfold buildFirstSeen at h
    rw [h]
  · intro k d h
    rw [hchar] at h
    rw [Option.map_eq_some'] at h
    obtain ⟨p, hp, hd⟩ := h
    obtain ⟨hmem, hobs, hmin⟩ := find?_first_min tl k hs p hp
    exact ⟨⟨p, hmem, hd, hobs⟩, fun q hq hqobs => hd ▸ hmin q hq hqobs⟩
  · intro k p hp hobs
    rw [hchar]
    cases hfind : List.find? (fun p => decide (k ∈ obsList p.2)) tl with
    | none =>
      rw [List.find?_eq_none] at hfind
      exact absurd (by simpa using hobs) (hfind p hp)
    | some q => rfl


/-- Witness for C3 at a concrete two-day timeline. -/
theorem c3_first_seen_monotonic_witness :
    (∃ p ∈ ([(0, [("trivy", [("i", ["CVE-2024-0001"])])]),
          (2, [("clair", [("i", ["CVE-2024-0001"])]),
               ("trivy", [("i", ["CVE-2024-0001"])])])] : List (ℤ × ObsIndex)),
        p.1 = 0 ∧ ("trivy", "CVE-2024-0001") ∈ obsList p.2) ∧
      ∀ p ∈ ([(0, [("trivy", [("i", ["CVE-2024-0001"])])]),
          (2, [("clair", [("i", ["CVE-2024-0001"])]),
               ("trivy", [("i", ["CVE-2024-0001"])])])] : List (ℤ × ObsIndex)),
        ("trivy", "CVE-2024-0001") ∈ obsList p.2 → 0 ≤ p.1 :=
  (c3_first_seen_monotonic _ (by decide)).2.1 ("trivy", "CVE-2024-0001") 0 (by decide)

/-! ### Claim C4: leadership rows -/

/-- `leadershipRows` written through `rowOfCve`. -/
theorem leadershipRows_eq_rowOfCve (fs : FirstSeen) :
    leadershipRows fs = ((fs.map (fun p => p.1.2)).dedup).filterMap (rowOfCve fs) := rfl

/-- A produced leadership row names its own CVE. -/
theorem rowOfCve_cve (fs : FirstSeen) (c : String) (r : FirstRow)
    (h : rowOfCve fs c = some r) : r.cve = c := by
  unfold rowOfCve at h
  cases h1 : fsLookup fs ("trivy", c) <;> cases h2 : fsLookup fs ("clair", c) <;>
      rw [h1, h2] at h
  · cases h
  · cases h
  · cases h
  · cases h
    rfl

/-- Over a duplicate-free CVE list, the rows bearing a given CVE number
one when the CVE is listed and produces a row, zero otherwise. -/
theorem filterMap_filter_count (fs : FirstSeen) (l : List String) (c : String)
    (hnd : l.Nodup) :
    ((l.filterMap (rowOfCve fs)).filter (fun r => r.cve == c)).length =
      if c ∈ l ∧ (rowOfCve fs c).isSome then 1 else 0 := by
  induction l with
  | nil => simp
  | cons a rest ih =>
    rw [List.nodup_cons] at hnd
    rw [List.filterMap_cons]
    by_cases hac : a = c
    · subst hac
      cases hf : rowOfCve fs a with
      | none =>
        rw [ih hnd.2]
        rw [if_neg (fun hh : a ∈ rest ∧ (rowOfCve fs a).isSome => hnd.1 hh.1),
          if_neg (fun hh : a ∈ a :: rest ∧ (Option.none : Option FirstRow).isSome =>
            by simp at hh)]
      | some r =>
        have hcve : r.cve = a := rowOfCve_cve fs a r hf
        rw [List.filter_cons]
        rw [if_pos (by simp [hcve])]
        simp only [List.length_cons]
        rw [ih hnd.2]
        rw [if_neg (fun hh : a ∈ rest ∧ (rowOfCve fs a).isSome => hnd.1 hh.1),
          if_pos ⟨List.mem_cons_self _ _, rfl⟩]
    · cases hf : rowOfCve fs a with
      | none =>
        rw [ih hnd.2]
        by_cases hcr : c ∈ rest ∧ (rowOfCve fs c).isSome
        · rw [if_pos hcr, if_pos ⟨List.mem_cons_of_mem _ hcr.1, hcr.2⟩]
        · rw [if_neg hcr, if_neg (fun hh => hcr
            ⟨(List.mem_cons.mp hh.1).resolve_left (fun he => hac he.symm), hh.2⟩)]
      | some r =>
        have hcve : r.cve = a := rowOfCve_cve fs a r hf
        rw [List.filter_cons]
        rw [if_neg (by simp [hcve, hac])]
        rw [ih hnd.2]
        by_cases hcr : c ∈ rest ∧ (rowOfCve fs c).isSome
        · rw [if_pos hcr, if_pos ⟨List.mem_cons_of_mem _ hcr.1, hcr.2⟩]
        · rw [if_neg hcr, if_neg (fun hh => hcr
            ⟨(List.mem_cons.mp hh.1).resolve_left (fun he => hac he.symm), hh.2⟩)]

/-- A first-seen entry contributes its CVE to the key listing. -/
theorem fsLookup_mem_keys (fs : FirstSeen) (k : String × String) (v : ℤ)
    (h : fsLookup fs k = some v) : k.2 ∈ fs.map (fun p => p.1.2) := by
  unfold fsLookup at h
  obtain ⟨a, hfind, hv⟩ := Option.map_eq_some'.mp h
  have hmem := List.mem_of_find?_eq_some hfind
  have hkey := List.find?_some hfind
  rw [beq_iff_eq] at hkey
  rw [← hkey]
  exact List.mem_map_of_mem (fun p => p.1.2) hmem

/-- Claim C4: for a CVE first seen under both tools, exactly one
leadership row is emitted, with `day_diff = firstSeen[trivy] -
firstSeen[clair]`, a tie at zero, Trivy leading when negative and Clair
when positive; a CVE first seen under only one tool yields no row. -/
theorem c4_leadership_rows (fs : FirstSeen) (c : String) :
    (∀ dt dc : ℤ,
        fsLookup fs ("trivy", c) = some dt → fsLookup fs ("clair", c) = some dc →
        ((leadershipRows fs).filter (fun r => r.cve == c)).length = 1 ∧
          ∀ r ∈ leadershipRows fs, r.cve = c →
            r.firstTrivy = dt ∧ r.firstClair = dc ∧ r.dayDiff = dt - dc ∧
              r.leading = (if dt - dc = 0 then "tie"
                else if dt - dc < 0 then "trivy" else "clair"))
    ∧ ((fsLookup fs ("trivy", c) = none ∨ fsLookup fs ("clair", c) = none) →
        ((leadershipRows fs).filter (fun r => r.cve == c)).length = 0) := by
  constructor
  · intro dt dc ht hc
    have hrow : rowOfCve fs c =
        some { cve := c, firstTrivy := dt, firstClair := dc,
               leading := if dt - dc = 0 then "tie"
                 else if dt - dc < 0 then "trivy" else "clair",
               dayDiff := dt - dc } := by
      unfold rowOfCve
      rw [ht, hc]
    constructor
    · rw [leadershipRows_eq_rowOfCve, filterMap_filter_count fs _ c (List.nodup_dedup _)]
      rw [if_pos ?_]
      constructor
      · rw [List.mem_dedup]
        exact fsLookup_mem_keys fs ("trivy", c) dt ht
      · rw [hrow]
        rfl
    · intro r hr hcve
      rw [leadershipRows_eq_rowOfCve, List.mem_filterMap] at hr
      obtain ⟨c', _, hf⟩ := hr
      have hc' : r.cve = c' := rowOfCve_cve fs c' r hf
      rw [hcve] at hc'
      rw [← hc'] at hf
      rw [hrow] at hf
      cases hf
      exact ⟨rfl, rfl, rfl, rfl⟩
  · intro hnone
    have hrow : rowOfCve fs c = none := by
      unfold rowOfCve
      rcases hnone with h | h
      · rw [h]
      · rw [h]
        cases fsLookup fs ("trivy", c) <;> rfl
    rw [leadershipRows_eq_rowOfCve, filterMap_filter_count fs _ c (List.nodup_dedup _)]
    rw [if_neg (fun hh => by simp [hrow] at hh)]


/-- Witness for C4 at a concrete first-seen index (Trivy two days ahead
of Clair, as in the spec's Scenario D). -/
theorem c4_leadership_rows_witness :
    ((leadershipRows [(("trivy", "CVE-2024-9999"), (0 : ℤ)),
        (("clair", "CVE-2024-9999"), 2)]).filter
      (fun r => r.cve == "CVE-2024-9999")).length = 1 :=
  ((c4_leadership_rows _ "CVE-2024-9999").1 0 2 (by decide) (by decide)).1

/-! ### Claim C5: the normalizer on arbitrary parsed documents -/

/-- Claim C5 fails on the code: `load_items` is not total on parsed JSON
documents.  On the valid document `\x7b"vulnerabilities": \x7b"k": 5\x7d\x7d` in a
clair directory, `clair_iter_items` evaluates `v.get("normalized_severity")`
with `v = 5`, raising `AttributeError` and aborting the batch.  Unreadable
input (`read_json` returning `None`) is soft-skipped as the claim states. -/
theorem c5_normalizer_raises_on_nondict_entry :
    loadItems ["reports", "clair", "01-01-2025", "img.json"]
        (some (.obj [("vulnerabilities", .obj [("k", .num 5)])])) = .error ()
    ∧ loadItems ["reports", "clair", "01-01-2025", "img.json"] none = .ok (none, []) :=
  ⟨rfl, rfl⟩

/-! ### Claim C8: severity normalization -/

/-- Counterexample to claim C8 as stated: a Trivy record with severity
`negligible` is retained with severity `UNKNOWN`, not dropped —
`sev_norm_trivy` has no negligible filter; only `clair_iter_items`
drops negligible. -/
theorem c8_trivy_negligible_retained :
    trivyIterItems (.obj [("Results", .arr [.obj [("Vulnerabilities",
        .arr [.obj [("VulnerabilityID", .str "CVE-2024-0001"),
          ("Severity", .str "negligible")]])]])]) =
      .ok [{ id := "CVE-2024-0001", severity := "UNKNOWN" }] := rfl

/-- A Trivy record resolves to a bucket severity. -/
theorem trivyProcessVuln_buckets (v : JVal) (it : Item)
    (h : trivyProcessVuln v = .ok (some it)) : it.severity ∈ SEV_BUCKETS := by
  unfold trivyProcessVuln at h
  simp only [Bind.bind, Except.bind, Pure.pure, Except.pure] at h
  repeat' split at h
  all_goals cases h
  all_goals first
    | assumption
    | exact (by decide : "UNKNOWN" ∈ SEV_BUCKETS)

/-- A Clair record resolves to a bucket severity. -/
theorem clairProcessEntry_buckets (k : String) (v : JVal) (it : Item)
    (h : clairProcessEntry k v = .ok (some it)) : it.severity ∈ SEV_BUCKETS := by
  unfold clairProcessEntry at h
  simp only [Bind.bind, Except.bind, Pure.pure, Except.pure] at h
  repeat' split at h
  all_goals cases h
  all_goals first
    | assumption
    | exact (by decide : "UNKNOWN" ∈ SEV_BUCKETS)

/-- All records of one Trivy vulnerability list carry bucket
severities. -/
theorem trivyVulns_buckets (vs : List JVal) (items : List Item)
    (h : trivyVulns vs = .ok items) : ∀ it ∈ items, it.severity ∈ SEV_BUCKETS := by
  induction vs generalizing items with
  | nil =>
    cases h
    simp
  | cons v rest ih =>
    cases hv : trivyProcessVuln v with
    | error e =>
      simp only [trivyVulns, hv, Bind.bind, Except.bind] at h
      cases h
    | ok it? =>
      cases hrest : trivyVulns rest with
      | error e =>
        simp only [trivyVulns, hv, hrest, Bind.bind, Except.bind] at h
        cases h
      | ok restItems =>
        simp only [trivyVulns, hv, hrest, Bind.bind, Except.bind, Pure.pure,
          Except.pure, Except.ok.injEq] at h
        cases it? with
        | some it0 =>
          subst h
          intro it hmem
          rcases List.mem_cons.mp hmem with rfl | hmem2
          · exact trivyProcessVuln_buckets _ _ hv
          · exact ih _ hrest it hmem2
        | none =>
          subst h
          exact ih _ hrest

/-- All records of a Trivy `Results` list carry bucket severities. -/
theorem trivyResults_buckets (rs : List JVal) (items : List Item)
    (h : trivyResults rs = .ok items) : ∀ it ∈ items, it.severity ∈ SEV_BUCKETS := by
  induction rs generalizing items with
  | nil =>
    cases h
    simp
  | cons r rest ih =>
    cases hg : pyGetD r "Vulnerabilities" with
    | error e =>
      simp only [trivyResults, hg, Bind.bind, Except.bind] at h
      cases h
    | ok vulnsV =>
      cases hit : pyIter (pyOr vulnsV (.arr [])) with
      | error e =>
        simp only [trivyResults, hg, hit, Bind.bind, Except.bind] at h
        cases h
      | ok vs =>
        cases hvs : trivyVulns vs with
        | error e =>
          simp only [trivyResults, hg, hit, hvs, Bind.bind, Except.bind] at h
          cases h
        | ok items1 =>
          cases hrest : trivyResults rest with
          | error e =>
            simp only [trivyResults, hg, hit, hvs, hrest, Bind.bind, Except.bind] at h
            cases h
          | ok items2 =>
            simp only [trivyResults, hg, hit, hvs, hrest, Bind.bind, Except.bind,
              Pure.pure, Except.pure, Except.ok.injEq] at h
            subst h
            intro it hmem
            rcases List.mem_append.mp hmem with hm | hm
            · exact trivyVulns_buckets _ _ hvs it hm
            · exact ih _ hrest it hm

/-- All records emitted by `trivy_iter_items` carry bucket
severities. -/
theorem trivyIterItems_buckets (obj : JVal) (items : List Item)
    (h : trivyIterItems obj = .ok items) : ∀ it ∈ items, it.severity ∈ SEV_BUCKETS := by
  cases obj with
  | obj fs =>
    cases hit : pyIter ((jGet fs "Results").getD (.arr [])) with
    | error e =>
      simp only [trivyIterItems, hit, Bind.bind, Except.bind] at h
      cases h
    | ok rs =>
      simp only [trivyIterItems, hit, Bind.bind, Except.bind] at h
      exact trivyResults_buckets _ _ h
  | null => cases h; simp
  | bool b => cases h; simp
  | num n => cases h; simp
  | str s => cases h; simp
  | arr xs => cases h; simp

/-- All records of a Clair entry list carry bucket severities. -/
theorem clairEntries_buckets (entries : List (String × JVal)) (items : List Item)
    (h : clairEntries entries = .ok items) : ∀ it ∈ items, it.severity ∈ SEV_BUCKETS := by
  induction entries generalizing items with
  | nil =>
    cases h
    simp
  | cons e rest ih =>
    cases hv : clairProcessEntry e.1 e.2 with
    | error err =>
      simp only [clairEntries, hv, Bind.bind, Except.bind] at h
      cases h
    | ok it? =>
      cases hrest : clairEntries rest with
      | error err =>
        simp only [clairEntries, hv, hrest, Bind.bind, Except.bind] at h
        cases h
      | ok restItems =>
        simp only [clairEntries, hv, hrest, Bind.bind, Except.bind, Pure.pure,
          Except.pure, Except.ok.injEq] at h
        cases it? with
        | some it0 =>
          subst h
          intro it hmem
          rcases List.mem_cons.mp hmem with rfl | hmem2
          · exact clairProcessEntry_buckets _ _ _ hv
          · exact ih _ hrest it hmem2
        | none =>
          subst h
          exact ih _ hrest

/-- All records emitted by `clair_iter_items` carry bucket
severities. -/
theorem clairIterItems_buckets (obj : JVal) (items : List Item)
    (h : clairIterItems obj = .ok items) : ∀ it ∈ items, it.severity ∈ SEV_BUCKETS := by
  cases obj with
  | obj fs =>
    unfold clairIterItems at h
    simp only [] at h
    split at h
    · cases h
      simp
    · exact clairEntries_buckets _ _ h
  | null => cases h; simp
  | bool b => cases h; simp
  | num n => cases h; simp
  | str s => cases h; simp
  | arr xs => cases h; simp

/-- A Clair entry whose resolved severity reads `negligible` (any
casing, via `title().lower()`) is dropped. -/
theorem clairProcessEntry_negligible (k : String) (fs : List (String × JVal)) (s : String)
    (h1 : asStr (pyOr (pyOr (jGetD fs "normalized_severity") (jGetD fs "severity"))
      (.str "UNKNOWN")) = .ok s)
    (h2 : pyLower (pyTitle (pyStrip s)) = "negligible") :
    clairProcessEntry k (.obj fs) = .ok none := by
  unfold clairProcessEntry
  simp only [pyGetD, Bind.bind, Except.bind, h1]
  rw [if_pos (beq_iff_eq.mpr h2)]
  rfl

/-- A Clair entry with no severity field defaults to `UNKNOWN`. -/
theorem clairProcessEntry_default_unknown (k : String) (fs : List (String × JVal)) (it : Item)
    (h1 : jGet fs "normalized_severity" = none) (h2 : jGet fs "severity" = none)
    (h : clairProcessEntry k (.obj fs) = .ok (some it)) : it.severity = "UNKNOWN" := by
  unfold clairProcessEntry at h
  simp only [pyGetD, Bind.bind, Except.bind, jGetD, h1, h2, Option.getD_none] at h
  simp only [pyOr, truthy, if_neg, Bool.false_eq_true, if_false, asStr] at h
  repeat' split at h
  all_goals cases h
  all_goals rfl

/-- A Trivy record with no `Severity` field defaults to `UNKNOWN`. -/
theorem trivyProcessVuln_default_unknown (fs : List (String × JVal)) (it : Item)
    (h1 : jGet fs "Severity" = none)
    (h : trivyProcessVuln (.obj fs) = .ok (some it)) : it.severity = "UNKNOWN" := by
  unfold trivyProcessVuln at h
  simp only [pyGetD, Bind.bind, Except.bind, jGetD, h1, Option.getD_none] at h
  simp only [pyOr, truthy, if_neg, Bool.false_eq_true, if_false, asStr] at h
  repeat' split at h
  all_goals cases h
  all_goals rfl

/-- Claim C8 (amended): every emitted record's severity is exactly one
of the five buckets; a Clair entry whose severity resolves to
`negligible` in any casing is dropped entirely; an absent severity
defaults to `UNKNOWN` for both tools.  (As the counterexample shows,
Trivy records with severity `negligible` are kept as `UNKNOWN`.) -/
theorem c8_severity_buckets_amended :
    (∀ (obj : JVal) (items : List Item), trivyIterItems obj = .ok items →
        ∀ it ∈ items, it.severity ∈ SEV_BUCKETS)
    ∧ (∀ (obj : JVal) (items : List Item), clairIterItems obj = .ok items →
        ∀ it ∈ items, it.severity ∈ SEV_BUCKETS)
    ∧ (∀ (k : String) (fs : List (String × JVal)) (s : String),
        asStr (pyOr (pyOr (jGetD fs "normalized_severity") (jGetD fs "severity"))
          (.str "UNKNOWN")) = .ok s →
        pyLower (pyTitle (pyStrip s)) = "negligible" →
        clairProcessEntry k (.obj fs) = .ok none)
    ∧ (∀ (k : String) (fs : List (String × JVal)) (it : Item),
        jGet fs "normalized_severity" = none → jGet fs "severity" = none →
        clairProcessEntry k (.obj fs) = .ok (some it) → it.severity = "UNKNOWN")
    ∧ (∀ (fs : List (String × JVal)) (it : Item), jGet fs "Severity" = none →
        trivyProcessVuln (.obj fs) = .ok (some it) → it.severity = "UNKNOWN") :=
  ⟨trivyIterItems_buckets, clairIterItems_buckets, clairProcessEntry_negligible,
    clairProcessEntry_default_unknown, trivyProcessVuln_default_unknown⟩

/-- Witness for C8 (amended): negligible is dropped in two casings. -/
theorem c8_severity_buckets_amended_witness :
    clairProcessEntry "k" (.obj [("severity", .str "NEGLIGIBLE")]) = .ok none ∧
      clairProcessEntry "k" (.obj [("severity", .str "Negligible"),
        ("name", .str "CVE-2024-0002")]) = .ok none :=
  ⟨c8_severity_buckets_amended.2.2.1 "k" _ "NEGLIGIBLE" rfl rfl,
    c8_severity_buckets_amended.2.2.1 "k" _ "Negligible" rfl rfl⟩


/-! ### Claim C10: the generic CVE-scan fallback -/

/-- Claim C10: whenever the tool-specific extractor returns an empty set
the extraction falls back to the generic serialize-and-scan pass; a
well-formed report with zero vulnerabilities can still contribute a
non-empty identifier set harvested from its metadata. -/
theorem c10_generic_fallback :
    (∀ (js : JVal) (s : Finset String), extractCvesTrivy js = .ok s → s = ∅ →
        extractCves "trivy" js = .ok (extractCvesGeneric js))
    ∧ (∀ (js : JVal) (s : Finset String), extractCvesClair js = .ok s → s = ∅ →
        extractCves "clair" js = .ok (extractCvesGeneric js))
    ∧ extractCvesTrivy (.obj [("Results", .arr []),
        ("Metadata", .obj [("desc", .str "see CVE-2024-0001 advisory")])]) = .ok ∅
    ∧ extractCves "trivy" (.obj [("Results", .arr []),
        ("Metadata", .obj [("desc", .str "see CVE-2024-0001 advisory")])]) =
      .ok {"CVE-2024-0001"} := by
  refine ⟨?_, ?_, ?_, ?_⟩
  · intro js s h hemp
    subst hemp
    unfold extractCves
    rw [if_pos (by rfl)]
    rw [h]
    simp [Except.map]
  · intro js s h hemp
    subst hemp
    unfold extractCves
    rw [if_neg (by decide), if_pos (by rfl)]
    rw [h]
    simp [Except.map]
  · rfl
  · rfl


/-- Witness for C10 at the concrete empty report. -/
theorem c10_generic_fallback_witness :
    extractCves "trivy" (.obj [("Results", .arr []),
        ("Metadata", .obj [("desc", .str "see CVE-2024-0001 advisory")])]) =
      .ok (extractCvesGeneric (.obj [("Results", .arr []),
        ("Metadata", .obj [("desc", .str "see CVE-2024-0001 advisory")])])) :=
  c10_generic_fallback.1 _ ∅ rfl rfl
